import Mathlib

/-!
Verification of the wolf-asm assembler / virtual-machine pair.

This development is a shallow embedding of the instruction-encoding layer
(`src/asm/src/asm/layout.rs`, `src/asm/src/asm/instr.rs`), the label-offset
pass (`src/asm/src/label_offsets.rs`, `src/asm/src/asm.rs`) and the virtual
machine (`src/vm/src/*.rs`).  Machine integers are modelled as `Nat` (for the
unsigned views `u8`/`u16`/`u64`/`u128`, with explicit `% 2 ^ w` where the Rust
code wraps) and `Int` (for the signed views `i8`/`i16`/`i64`/`i128`).
Fallible Rust functions returning `Result` are modelled with `Except`;
`todo!()` stubs are modelled with a distinguished `todo` outcome.
-/

set_option maxRecDepth 100000
set_option maxHeartbeats 2000000

namespace WolfAsm

/-- `asm::REGISTERS` (src/asm/src/asm.rs line 16): the number of registers.
The bit-pattern code also uses this constant as the bit width of a word. -/
def REGISTERS : Nat := 64

/-- Truncation of a natural number to the low 64 bits (`as u64` on `u128`,
and the wrapping result of `u64` arithmetic). -/
def toU64 (n : Nat) : Nat := n % 2 ^ 64

/-- `i64::from_le_bytes(x.to_le_bytes())` for `x : u64`: reinterpret the 64
bits as a signed two's-complement value. -/
def i64OfU64 (x : Nat) : Int := if x < 2 ^ 63 then (x : Int) else (x : Int) - 2 ^ 64

/-- Reinterpret the low `bits` bits of an unsigned value as a signed
two's-complement value (`i8`/`i16` reinterpretation of `u8`/`u16`). -/
def signedOfBits (bits : Nat) (x : Nat) : Int :=
  if x < 2 ^ (bits - 1) then (x : Int) else (x : Int) - 2 ^ bits

/-- The low 64 bits of a signed value (`u64::reinterpret` for `i8`, `i16`,
`i32`, `i64` and `i128` sources: sign-extend to 64 bits, keep the bits). -/
def u64OfInt (v : Int) : Nat := (v % (2 : Int) ^ 64).toNat

/-- The 16-bit two's-complement pattern of an `i16`
(`u16::from_le_bytes(x.to_le_bytes())` in `Offset::write`). -/
def u16OfInt (v : Int) : Nat := (v % (2 : Int) ^ 16).toNat

/-- `u128::from_le_bytes(value.to_le_bytes())` for an `i128` value:
the full 128-bit two's-complement pattern (`Imm::write`). -/
def i128Bits (v : Int) : Nat := (v % (2 : Int) ^ 128).toNat

/-- Wrapping 64-bit subtraction (release-mode `a - b` on `u64`). -/
def wrapSub (a b : Nat) : Nat := ((a + 2 ^ 64) - b % 2 ^ 64) % 2 ^ 64

/-! ## BitPattern codec (src/asm/src/asm/layout.rs)

Each field type writes its bits into a 64-bit word at an offset counted from
the most significant bit, and reads them back.  `write` shifts the value to
`REGISTERS - msb_offset - size_bits` and ORs it in; `read` shifts right by the
same amount and masks with `!0u64 >> (REGISTERS - size_bits)`.
-/

/-- `Opcode::write` (layout.rs lines 381-390).  The opcode is a `u16`
(12 bits used); the stored value is `base_opcode + layout_offset` computed in
`u16` arithmetic, which the caller passes in already reduced. -/
def opcodeWrite (value : Nat) (msbOffset : Nat) (out : Nat) : Nat :=
  out ||| ((value <<< (REGISTERS - msbOffset - 12)) % 2 ^ 64)

/-- `Opcode::read` (layout.rs lines 392-404). -/
def opcodeRead (value : Nat) (msbOffset : Nat) : Nat :=
  (value >>> (REGISTERS - msbOffset - 12)) &&& ((2 ^ 64 - 1) >>> (REGISTERS - 12))

/-- `Reg::write` (layout.rs lines 430-438): a 6-bit register number. -/
def regWrite (value : Nat) (msbOffset : Nat) (out : Nat) : Nat :=
  out ||| ((value <<< (REGISTERS - msbOffset - 6)) % 2 ^ 64)

/-- `Reg::read` (layout.rs lines 441-453): extract 6 bits and mask. -/
def regRead (value : Nat) (msbOffset : Nat) : Nat :=
  (value >>> (REGISTERS - msbOffset - 6)) &&& ((2 ^ 64 - 1) >>> (REGISTERS - 6))

/-- `Offset::write` (layout.rs lines 573-583): the 16 two's-complement bits of
the `i16` offset, shifted into place. -/
def offsetWrite (value : Int) (msbOffset : Nat) (out : Nat) : Nat :=
  out ||| ((u16OfInt value <<< (REGISTERS - msbOffset - 16)) % 2 ^ 64)

/-- `Offset::read` (layout.rs lines 586-605): extract 16 bits and reinterpret
the low two bytes as `i16`. -/
def offsetRead (value : Nat) (msbOffset : Nat) : Int :=
  signedOfBits 16 ((value >>> (REGISTERS - msbOffset - 16)) &&& ((2 ^ 64 - 1) >>> (REGISTERS - 16)))

/-- `Imm::<S>::write` (layout.rs lines 493-508) in release mode: take the full
128-bit two's-complement pattern of the `i128` value, truncate it to `u64`
(`as u64`), shift it to the field position and OR it in.  (The function's
`debug_assert!` that the pattern fits in `size_bits` bits is skipped in
release builds; nothing masks the value to the field width.) -/
def immWrite (bits : Nat) (value : Int) (msbOffset : Nat) (out : Nat) : Nat :=
  out ||| (((i128Bits value % 2 ^ 64) <<< (REGISTERS - msbOffset - bits)) % 2 ^ 64)

/-- `Imm::<S>::read` (layout.rs lines 510-528): extract `bits` bits, then
sign-extend with `(value ^ mask) - mask` (`mask = 1 << (bits - 1)`; the
subtraction wraps in `u64`), and reinterpret the result as `i64` (widened
unchanged to `i128`). -/
def immRead (bits : Nat) (value : Nat) (msbOffset : Nat) : Int :=
  let v := (value >>> (REGISTERS - msbOffset - bits)) &&& ((2 ^ 64 - 1) >>> (REGISTERS - bits))
  let mask := 1 <<< (bits - 1)
  i64OfU64 (wrapSub (v ^^^ mask) mask)

/-! ## Layouts (src/asm/src/asm/layout.rs, `layout!` macro expansion)

Registers are 6-bit numbers (`Nat`), immediates are `i128` values (`Int`),
offsets are `i16` values (`Int`). -/

/-- The `Layout` enum: the eleven supported argument layouts L1-L11. -/
inductive Layout
  | l1 (r1 r2 : Nat)
  | l2 (r : Nat) (im : Int)
  | l3 (im : Int) (r : Nat)
  | l4 (r1 r2 : Nat) (off : Int)
  | l5 (r : Nat) (off : Int) (im : Int)
  | l6 (im1 im2 : Int)
  | l7 (r1 r2 r3 : Nat)
  | l8 (r1 r2 : Nat) (im : Int)
  | l9 (r : Nat)
  | l10 (im : Int)
  | l11 (r : Nat) (off : Int)
deriving DecidableEq, Repr

/-- The `#[opcode_offset = ...]` attribute of each layout variant. -/
def Layout.opcodeOffset : Layout → Nat
  | .l1 .. => 0
  | .l2 .. => 1
  | .l3 .. => 2
  | .l4 .. => 3
  | .l5 .. => 4
  | .l6 .. => 5
  | .l7 .. => 6
  | .l8 .. => 7
  | .l9 .. => 8
  | .l10 .. => 9
  | .l11 .. => 10

/-- `used_arguments_bits()` for each layout: the sum of its field widths. -/
def Layout.usedArgumentsBits : Layout → Nat
  | .l1 .. => 6 + 6
  | .l2 .. => 6 + 46
  | .l3 .. => 46 + 6
  | .l4 .. => 6 + 6 + 16
  | .l5 .. => 6 + 16 + 30
  | .l6 .. => 26 + 26
  | .l7 .. => 6 + 6 + 6
  | .l8 .. => 6 + 6 + 40
  | .l9 .. => 6
  | .l10 .. => 52
  | .l11 .. => 6 + 16

/-- `Layout::to_binary` / each `$layout_struct::to_binary` (layout.rs lines
69-86): write the opcode `base_opcode + offset` (in `u16` arithmetic) at MSB
offset 0, then the fields left to right at the accumulated offsets. -/
def Layout.toBinary (l : Layout) (baseOpcode : Nat) : Nat :=
  let op : Nat → Nat := fun off => (baseOpcode + off) % 2 ^ 16
  match l with
  | .l1 r1 r2 => regWrite r2 18 (regWrite r1 12 (opcodeWrite (op 0) 0 0))
  | .l2 r im => immWrite 46 im 18 (regWrite r 12 (opcodeWrite (op 1) 0 0))
  | .l3 im r => regWrite r 58 (immWrite 46 im 12 (opcodeWrite (op 2) 0 0))
  | .l4 r1 r2 off => offsetWrite off 24 (regWrite r2 18 (regWrite r1 12 (opcodeWrite (op 3) 0 0)))
  | .l5 r off im => immWrite 30 im 34 (offsetWrite off 18 (regWrite r 12 (opcodeWrite (op 4) 0 0)))
  | .l6 im1 im2 => immWrite 26 im2 38 (immWrite 26 im1 12 (opcodeWrite (op 5) 0 0))
  | .l7 r1 r2 r3 => regWrite r3 24 (regWrite r2 18 (regWrite r1 12 (opcodeWrite (op 6) 0 0)))
  | .l8 r1 r2 im => immWrite 40 im 24 (regWrite r2 18 (regWrite r1 12 (opcodeWrite (op 7) 0 0)))
  | .l9 r => regWrite r 12 (opcodeWrite (op 8) 0 0)
  | .l10 im => immWrite 52 im 12 (opcodeWrite (op 9) 0 0)
  | .l11 r off => offsetWrite off 18 (regWrite r 12 (opcodeWrite (op 10) 0 0))

/-- Modelled from the spec: `Layout::from_binary`, which `Instr::decode`
(src/vm/src/decode.rs line 54) calls but whose definition is not among the
provided sources.  Per the spec (section 4.7), given the layout offset it
"constructs the typed argument tuple by reading fields in declared order":
each layout's fields are read with the `BitPattern::read` implementations at
the same MSB offsets `to_binary` writes them, and an offset outside 0-10 has
no layout (`None`, surfaced by the decoder as an invalid-opcode error). -/
def Layout.fromBinary (w : Nat) (opcodeOffset : Nat) : Option Layout :=
  match opcodeOffset with
  | 0 => some (.l1 (regRead w 12) (regRead w 18))
  | 1 => some (.l2 (regRead w 12) (immRead 46 w 18))
  | 2 => some (.l3 (immRead 46 w 12) (regRead w 58))
  | 3 => some (.l4 (regRead w 12) (regRead w 18) (offsetRead w 24))
  | 4 => some (.l5 (regRead w 12) (offsetRead w 18) (immRead 30 w 34))
  | 5 => some (.l6 (immRead 26 w 12) (immRead 26 w 38))
  | 6 => some (.l7 (regRead w 12) (regRead w 18) (regRead w 24))
  | 7 => some (.l8 (regRead w 12) (regRead w 18) (immRead 40 w 24))
  | 8 => some (.l9 (regRead w 12))
  | 9 => some (.l10 (immRead 52 w 12))
  | 10 => some (.l11 (regRead w 12) (offsetRead w 18))
  | _ => none

/-- The layout.rs test `encoded_instr` (lines 675-681): L5 with Reg(61),
Offset(-3392), Imm(0x3f3f7ac9) at base opcode 32 encodes to the test's
binary literal (equal to 0x024f7cb03f3f7ac9). -/
example : Layout.toBinary (.l5 61 (-3392) 0x3f3f7ac9) 32 = 0x024f7cb03f3f7ac9 := by decide

/-! ## Instruction kinds and base opcodes (src/asm/src/asm/instr.rs)

The `instr!` macro assigns every instruction kind a base opcode via
`#[opcode = ...]`. -/

/-- The `InstrKind` enum: one variant per instruction kind, in declaration
order (instr.rs lines 164-286). -/
inductive InstrKind
  | nop | add | sub
  | mul | mull | mulu | mullu
  | div | divr | divu | divru
  | rem | remu
  | and | or | xor | not
  | test | cmp
  | mov
  | load1 | loadu1 | load2 | loadu2 | load4 | loadu4 | load8 | loadu8
  | store1 | store2 | store4 | store8
  | push | pop
  | jmp | je | jne | jg | jge | ja | jae | jl | jle | jb | jbe
  | jo | jno | jz | jnz | js | jns
  | call | ret
deriving DecidableEq, Repr

/-- The `opcodes` table of `InstrKind::from_opcode` (instr.rs line 89): each
kind's `#[opcode = ...]` base opcode, in declaration order. -/
def opcodeTable : List (Nat × InstrKind) :=
  [(0, .nop), (12, .add), (24, .sub),
   (36, .mul), (48, .mull), (60, .mulu), (72, .mullu),
   (84, .div), (96, .divr), (108, .divu), (120, .divru),
   (132, .rem), (144, .remu),
   (156, .and), (168, .or), (180, .xor), (192, .not),
   (204, .test), (216, .cmp),
   (228, .mov),
   (240, .load1), (252, .loadu1), (264, .load2), (276, .loadu2),
   (288, .load4), (300, .loadu4), (312, .load8), (324, .loadu8),
   (336, .store1), (348, .store2), (360, .store4), (372, .store8),
   (384, .push), (396, .pop),
   (408, .jmp), (420, .je), (432, .jne), (444, .jg), (456, .jge),
   (468, .ja), (480, .jae), (492, .jl), (504, .jle), (516, .jb),
   (528, .jbe), (540, .jo), (552, .jno), (564, .jz), (576, .jnz),
   (588, .js), (600, .jns),
   (612, .call), (624, .ret)]

/-- Helper for `InstrKind.fromOpcode`: walk the (ascending) opcode table and
keep the last entry whose opcode is `≤` the observed opcode. -/
def lastEntryLE (opcode : Nat) : List (Nat × InstrKind) → (Nat × InstrKind) → (Nat × InstrKind)
  | [], best => best
  | e :: rest, best => if e.1 ≤ opcode then lastEntryLE opcode rest e else best

/-- `InstrKind::from_opcode` (instr.rs lines 87-95): find the greatest base
opcode `≤ opcode` (the code uses `binary_search_by_key` and, on a miss, the
entry just before the insertion point, which on the sorted table starting at
opcode 0 is exactly the greatest entry `≤ opcode`), and return its kind
together with `opcode - base_opcode`. -/
def InstrKind.fromOpcode (opcode : Nat) : InstrKind × Nat :=
  let e := lastEntryLE opcode opcodeTable (0, .nop)
  (e.2, opcode - e.1)

example : InstrKind.fromOpcode 621 = (.call, 9) := by decide
example : InstrKind.fromOpcode 4095 = (.ret, 3471) := by decide
example : InstrKind.fromOpcode 11 = (.nop, 11) := by decide

/-! ## Immediate validation (src/asm/src/asm/layout.rs, `ImmSize`) -/

/-- `ImmSize::validate_immediate` (layout.rs lines 534-555): an immediate
must lie between `-2^(bits-1)` and `2^(bits-1)-1`; in range, the value is
kept and no diagnostic is emitted (`false`); out of range, an error
diagnostic is emitted (`true`) and the recovery value 0 is used. -/
def validateImmediate (bits : Nat) (value : Int) : Int × Bool :=
  let smin : Int := -((2 : Int) ^ (bits - 1))
  let umax : Int := (2 : Int) ^ (bits - 1) - 1
  if smin ≤ value ∧ value ≤ umax then (value, false) else (0, true)

/-- The declared immediate sizes `S52`, `S46`, `S40`, `S30`, `S26`
(layout.rs lines 636-652). -/
def immSizes : List Nat := [52, 46, 40, 30, 26]

/-! ## Flags (src/vm/src/flags.rs) -/

/-- The carry flag. -/
inductive CF | noCarry | carry
deriving DecidableEq, Repr

/-- The zero flag. -/
inductive ZF | nonZero | zero
deriving DecidableEq, Repr

/-- The sign flag. -/
inductive SF | positiveSign | negativeSign
deriving DecidableEq, Repr

/-- The overflow flag. -/
inductive OF | noOverflow | overflow
deriving DecidableEq, Repr

/-- The status/flags register. -/
structure Flags where
  carry : CF
  zero : ZF
  sign : SF
  overflow : OF
deriving DecidableEq, Repr

/-- `Flags::default()`: no carry, zero, positive sign, no overflow. -/
def Flags.default : Flags := ⟨.noCarry, .zero, .positiveSign, .noOverflow⟩

/-! ## Memory-mapped I/O state (src/vm/src/io.rs)

`Stdio::read_byte` reads the process's standard input a line at a time and
hands out one byte per call, returning `None` once end of input is reached;
`Stdio::write_bytes` prints the `u32` as a Unicode scalar, substituting the
replacement character U+FFFD when the value is not a valid scalar.  The
external byte streams are modelled explicitly: `input` is the sequence of
bytes standard input still holds, and `output` collects the scalar values
written so far. -/
structure Stdio where
  input : List Nat
  output : List Nat
deriving DecidableEq, Repr

/-- `Stdio::read_byte` (io.rs lines 16-29): the next available input byte,
or `none` at end of input. -/
def Stdio.readByte (io : Stdio) : Option Nat × Stdio :=
  match io.input with
  | [] => (none, io)
  | b :: rest => (some b, { io with input := rest })

/-- `char::from_u32(value).unwrap_or(char::REPLACEMENT_CHARACTER)`: a `u32`
is a valid Unicode scalar iff it is below the surrogate range or between it
and 0x110000. -/
def charOrReplacement (value : Nat) : Nat :=
  if value < 0xd800 ∨ (0xe000 ≤ value ∧ value < 0x110000) then value else 0xfffd

/-- `Stdio::write_bytes` (io.rs lines 39-45). -/
def Stdio.writeBytes (io : Stdio) (value : Nat) : Stdio :=
  { io with output := io.output ++ [charOrReplacement value] }

/-! ## Memory (src/vm/src/memory.rs)

Memory is a byte vector; multi-byte accesses are little-endian and bounds
checked. -/

/-- The `OutOfBounds` error: offending address and memory capacity. -/
structure OutOfBounds where
  addr : Nat
  capacity : Nat
deriving DecidableEq, Repr

/-- The error value `Memory::slice`/`slice_mut` build for the range
`start..stop` (memory.rs lines 47-62). -/
def oobError (start stop capacity : Nat) : OutOfBounds :=
  if start ≥ capacity then ⟨start, capacity⟩ else ⟨stop - 1, capacity⟩

/-- `<u64/u32/u16>::to_le_bytes`, generalized: the `n` little-endian bytes of
a value. -/
def leBytes : Nat → Nat → List Nat
  | 0, _ => []
  | n + 1, v => (v % 256) :: leBytes n (v / 256)

/-- `<uN>::from_le_bytes`, generalized: combine little-endian bytes. -/
def leCombine : List Nat → Nat
  | [] => 0
  | b :: bs => b + 256 * leCombine bs

/-- `Memory::get` (memory.rs lines 28-33): one byte, bounds checked. -/
def memGet (mem : List Nat) (addr : Nat) : Except OutOfBounds Nat :=
  match mem.get? addr with
  | some b => .ok b
  | none => .error ⟨addr, mem.length⟩

/-- `Memory::set` (memory.rs lines 36-44). -/
def memSet (mem : List Nat) (addr : Nat) (value : Nat) : Except OutOfBounds (List Nat) :=
  if addr < mem.length then .ok (mem.set addr value) else .error ⟨addr, mem.length⟩

/-- `Memory::read_u16`/`read_u32`/`read_u64` (memory.rs lines 92-134),
generalized over the byte width: slice `addr..addr+n` and combine
little-endian. -/
def memRead (mem : List Nat) (addr n : Nat) : Except OutOfBounds Nat :=
  if addr + n ≤ mem.length then .ok (leCombine ((mem.drop addr).take n))
  else .error (oobError addr (addr + n) mem.length)

/-- `Memory::write_u16`/`write_u32`/`write_u64` (memory.rs lines 83-125),
generalized over the byte width: overwrite `addr..addr+n` with the value's
little-endian bytes. -/
def memWrite (mem : List Nat) (addr n value : Nat) : Except OutOfBounds (List Nat) :=
  if addr + n ≤ mem.length then
    .ok (mem.take addr ++ leBytes n value ++ mem.drop (addr + n))
  else .error (oobError addr (addr + n) mem.length)

/-! ## Registers (src/vm/src/registers.rs)

The register file is 64 `u64` words.  `Registers::load`/`store` index the
array with `get_unchecked`, relying on decoded register numbers being below
64; the embedding uses a checked list access so that this reliance is a
provable statement (`Registers.loadChecked`). -/

/-- `Registers::load` specialized to `R = u64` (registers.rs lines 57-62):
the value of register `reg`. -/
def Registers.load (regs : List Nat) (reg : Nat) : Nat :=
  (regs.get? reg).getD 0

/-- The bounds-checked view of the same array access: `some` exactly when
the unchecked access of `Registers::load` stays inside the array. -/
def Registers.loadChecked (regs : List Nat) (reg : Nat) : Option Nat :=
  regs.get? reg

/-- `Registers::store` specialized to a `u64` value (registers.rs lines
65-72). -/
def Registers.store (regs : List Nat) (reg : Nat) (value : Nat) : List Nat :=
  regs.set reg value

/-- The stack pointer is register `REGISTERS - 1 = 63`, the frame pointer
`REGISTERS - 2 = 62` (`From<asm::RegisterKind> for Reg`, layout.rs lines
456-469). -/
def SP_REG : Nat := REGISTERS - 1

/-- `Registers::new` (registers.rs lines 45-54): all zeros except SP and FP,
which start at the end-of-stack address. -/
def Registers.new (stackEndAddr : Nat) : List Nat :=
  Registers.store (Registers.store (List.replicate 64 0) SP_REG stackEndAddr)
    (REGISTERS - 2) stackEndAddr

/-! ## Operands (src/vm/src/operands.rs) -/

/-- A source operand: register or immediate (`i128`). -/
inductive Source
  | register (reg : Nat)
  | immediate (imm : Int)
deriving DecidableEq, Repr

/-- A destination operand: always a register. -/
inductive Destination
  | register (reg : Nat)
deriving DecidableEq, Repr

/-- A location operand: register with optional `i16` offset, or immediate. -/
inductive Location
  | register (reg : Nat) (offset : Option Int)
  | immediate (imm : Int)
deriving DecidableEq, Repr

/-- Constants from src/vm/src/execute.rs lines 12-19. -/
def QUIT_ADDR : Nat := 2 ^ 64 - 1

/-- The memory-mapped stdout address `0xffff_000c`. -/
def STDOUT_ADDR : Nat := 0xffff000c

/-- The memory-mapped stdin address `0xffff_0004`. -/
def STDIN_ADDR : Nat := 0xffff0004

/-- The byte substituted at end of input. -/
def EOF_BYTE : Nat := 0

/-! ## Machine state (src/vm/src/machine.rs) -/

/-- The machine: program counter, memory, registers, flags and the
memory-mapped I/O state that `execute.rs` accesses as `vm.io`. -/
structure Machine where
  programCounter : Nat
  memory : List Nat
  registers : List Nat
  flags : Flags
  io : Stdio
deriving DecidableEq, Repr

/-- `Operand::into_value::<u64>` for `Source` (operands.rs lines 65-75):
a register's value, or the low 64 bits of the immediate. -/
def Source.intoValue (s : Source) (m : Machine) : Nat :=
  match s with
  | .register reg => Registers.load m.registers reg
  | .immediate imm => u64OfInt imm

/-- `Operand::into_value::<u64>` for `Destination` (operands.rs lines
89-95). -/
def Destination.intoValue (d : Destination) (m : Machine) : Nat :=
  match d with
  | .register reg => Registers.load m.registers reg

/-- `Operand::into_value::<u64>` for `Location` (operands.rs lines 128-144):
a register value plus the sign-extended offset (wrapping `u64` addition), or
the low 64 bits of the immediate. -/
def Location.intoValue (l : Location) (m : Machine) : Nat :=
  match l with
  | .register reg none => Registers.load m.registers reg
  | .register reg (some off) => (Registers.load m.registers reg + u64OfInt off) % 2 ^ 64
  | .immediate imm => u64OfInt imm

/-- `StoreDestination::store_dest` for `Machine` (operands.rs lines 14-22). -/
def Machine.storeDest (m : Machine) (d : Destination) (value : Nat) : Machine :=
  match d with
  | .register reg => { m with registers := Registers.store m.registers reg value }

/-! ## Decoder (src/vm/src/decode.rs) -/

deriving instance DecidableEq for Except

/-- `DecodeError`. -/
inductive DecodeError
  | invalidOpcode (opcode : Nat)
  | unsupportedInstructionLayout
deriving DecidableEq, Repr

/-- The decoded `Instr` enum (decode.rs lines 96-165): one variant per
instruction kind, carrying its typed operands. -/
inductive Instr
  | nop
  | add (dest : Destination) (source : Source)
  | sub (dest : Destination) (source : Source)
  | mul (dest : Destination) (source : Source)
  | mull (destHi dest : Destination) (source : Source)
  | mulu (dest : Destination) (source : Source)
  | mullu (destHi dest : Destination) (source : Source)
  | div (dest : Destination) (source : Source)
  | divr (destRem dest : Destination) (source : Source)
  | divu (dest : Destination) (source : Source)
  | divru (destRem dest : Destination) (source : Source)
  | rem (dest : Destination) (source : Source)
  | remu (dest : Destination) (source : Source)
  | and (dest : Destination) (source : Source)
  | or (dest : Destination) (source : Source)
  | xor (dest : Destination) (source : Source)
  | not (dest : Destination)
  | test (source1 source2 : Source)
  | cmp (source1 source2 : Source)
  | mov (dest : Destination) (source : Source)
  | load1 (dest : Destination) (loc : Location)
  | loadu1 (dest : Destination) (loc : Location)
  | load2 (dest : Destination) (loc : Location)
  | loadu2 (dest : Destination) (loc : Location)
  | load4 (dest : Destination) (loc : Location)
  | loadu4 (dest : Destination) (loc : Location)
  | load8 (dest : Destination) (loc : Location)
  | loadu8 (dest : Destination) (loc : Location)
  | store1 (loc : Location) (source : Source)
  | store2 (loc : Location) (source : Source)
  | store4 (loc : Location) (source : Source)
  | store8 (loc : Location) (source : Source)
  | push (source : Source)
  | pop (dest : Destination)
  | jmp (loc : Location)
  | je (loc : Location)
  | jne (loc : Location)
  | jg (loc : Location)
  | jge (loc : Location)
  | ja (loc : Location)
  | jae (loc : Location)
  | jl (loc : Location)
  | jle (loc : Location)
  | jb (loc : Location)
  | jbe (loc : Location)
  | jo (loc : Location)
  | jno (loc : Location)
  | jz (loc : Location)
  | jnz (loc : Location)
  | js (loc : Location)
  | jns (loc : Location)
  | call (loc : Location)
  | ret

/-- `ArgumentsLayout::from_layout` for `(Destination, Source)` (decode.rs
lines 190-197): accepts L1 and L2. -/
def argsDestSource : Layout → Except DecodeError (Destination × Source)
  | .l1 dest src => .ok (.register dest, .register src)
  | .l2 dest src => .ok (.register dest, .immediate src)
  | _ => .error .unsupportedInstructionLayout

/-- `ArgumentsLayout::from_layout` for `(Source, Source)` (decode.rs lines
199-208): accepts L1, L2, L3 and L6. -/
def argsSourceSource : Layout → Except DecodeError (Source × Source)
  | .l1 src1 src2 => .ok (.register src1, .register src2)
  | .l2 src1 src2 => .ok (.register src1, .immediate src2)
  | .l3 src1 src2 => .ok (.immediate src1, .register src2)
  | .l6 src1 src2 => .ok (.immediate src1, .immediate src2)
  | _ => .error .unsupportedInstructionLayout

/-- `ArgumentsLayout::from_layout` for `(Destination, Location)` (decode.rs
lines 210-218): accepts L1, L2 and L4. -/
def argsDestLocation : Layout → Except DecodeError (Destination × Location)
  | .l1 dest loc => .ok (.register dest, .register loc none)
  | .l2 dest loc => .ok (.register dest, .immediate loc)
  | .l4 dest loc off => .ok (.register dest, .register loc (some off))
  | _ => .error .unsupportedInstructionLayout

/-- `ArgumentsLayout::from_layout` for `(Location, Source)` (decode.rs lines
220-231): accepts L1-L6. -/
def argsLocationSource : Layout → Except DecodeError (Location × Source)
  | .l1 loc src => .ok (.register loc none, .register src)
  | .l2 loc src => .ok (.register loc none, .immediate src)
  | .l3 loc src => .ok (.immediate loc, .register src)
  | .l4 loc src off => .ok (.register loc (some off), .register src)
  | .l5 loc off src => .ok (.register loc (some off), .immediate src)
  | .l6 loc src => .ok (.immediate loc, .immediate src)
  | _ => .error .unsupportedInstructionLayout

/-- `ArgumentsLayout::from_layout` for `(Destination, Destination, Source)`
(decode.rs lines 233-240): accepts L7 and L8. -/
def argsDestDestSource : Layout → Except DecodeError (Destination × Destination × Source)
  | .l7 dest1 dest2 src => .ok (.register dest1, .register dest2, .register src)
  | .l8 dest1 dest2 src => .ok (.register dest1, .register dest2, .immediate src)
  | _ => .error .unsupportedInstructionLayout

/-- `ArgumentsLayout::from_layout` for `(Source,)` (decode.rs lines
242-249): accepts L9 and L10. -/
def argsSource1 : Layout → Except DecodeError Source
  | .l9 src => .ok (.register src)
  | .l10 src => .ok (.immediate src)
  | _ => .error .unsupportedInstructionLayout

/-- `ArgumentsLayout::from_layout` for `(Destination,)` (decode.rs lines
251-257): accepts only L9. -/
def argsDest1 : Layout → Except DecodeError Destination
  | .l9 dest => .ok (.register dest)
  | _ => .error .unsupportedInstructionLayout

/-- `ArgumentsLayout::from_layout` for `(Location,)` (decode.rs lines
259-267): accepts L9, L10 and L11. -/
def argsLocation1 : Layout → Except DecodeError Location
  | .l9 loc => .ok (.register loc none)
  | .l10 loc => .ok (.immediate loc)
  | .l11 loc off => .ok (.register loc (some off))
  | _ => .error .unsupportedInstructionLayout

/-- Build the typed instruction for a kind from a decoded layout: the
per-struct `args_from_layout` calls dispatched by `Instr::decode`
(decode.rs lines 57-61). -/
def instrFromLayout (kind : InstrKind) (args : Layout) : Except DecodeError Instr :=
  match kind with
  | .nop => .ok .nop
  | .add => do let (d, s) ← argsDestSource args; .ok (.add d s)
  | .sub => do let (d, s) ← argsDestSource args; .ok (.sub d s)
  | .mul => do let (d, s) ← argsDestSource args; .ok (.mul d s)
  | .mull => do let (dh, d, s) ← argsDestDestSource args; .ok (.mull dh d s)
  | .mulu => do let (d, s) ← argsDestSource args; .ok (.mulu d s)
  | .mullu => do let (dh, d, s) ← argsDestDestSource args; .ok (.mullu dh d s)
  | .div => do let (d, s) ← argsDestSource args; .ok (.div d s)
  | .divr => do let (dr, d, s) ← argsDestDestSource args; .ok (.divr dr d s)
  | .divu => do let (d, s) ← argsDestSource args; .ok (.divu d s)
  | .divru => do let (dr, d, s) ← argsDestDestSource args; .ok (.divru dr d s)
  | .rem => do let (d, s) ← argsDestSource args; .ok (.rem d s)
  | .remu => do let (d, s) ← argsDestSource args; .ok (.remu d s)
  | .and => do let (d, s) ← argsDestSource args; .ok (.and d s)
  | .or => do let (d, s) ← argsDestSource args; .ok (.or d s)
  | .xor => do let (d, s) ← argsDestSource args; .ok (.xor d s)
  | .not => do let d ← argsDest1 args; .ok (.not d)
  | .test => do let (s1, s2) ← argsSourceSource args; .ok (.test s1 s2)
  | .cmp => do let (s1, s2) ← argsSourceSource args; .ok (.cmp s1 s2)
  | .mov => do let (d, s) ← argsDestSource args; .ok (.mov d s)
  | .load1 => do let (d, l) ← argsDestLocation args; .ok (.load1 d l)
  | .loadu1 => do let (d, l) ← argsDestLocation args; .ok (.loadu1 d l)
  | .load2 => do let (d, l) ← argsDestLocation args; .ok (.load2 d l)
  | .loadu2 => do let (d, l) ← argsDestLocation args; .ok (.loadu2 d l)
  | .load4 => do let (d, l) ← argsDestLocation args; .ok (.load4 d l)
  | .loadu4 => do let (d, l) ← argsDestLocation args; .ok (.loadu4 d l)
  | .load8 => do let (d, l) ← argsDestLocation args; .ok (.load8 d l)
  | .loadu8 => do let (d, l) ← argsDestLocation args; .ok (.loadu8 d l)
  | .store1 => do let (l, s) ← argsLocationSource args; .ok (.store1 l s)
  | .store2 => do let (l, s) ← argsLocationSource args; .ok (.store2 l s)
  | .store4 => do let (l, s) ← argsLocationSource args; .ok (.store4 l s)
  | .store8 => do let (l, s) ← argsLocationSource args; .ok (.store8 l s)
  | .push => do let s ← argsSource1 args; .ok (.push s)
  | .pop => do let d ← argsDest1 args; .ok (.pop d)
  | .jmp => do let l ← argsLocation1 args; .ok (.jmp l)
  | .je => do let l ← argsLocation1 args; .ok (.je l)
  | .jne => do let l ← argsLocation1 args; .ok (.jne l)
  | .jg => do let l ← argsLocation1 args; .ok (.jg l)
  | .jge => do let l ← argsLocation1 args; .ok (.jge l)
  | .ja => do let l ← argsLocation1 args; .ok (.ja l)
  | .jae => do let l ← argsLocation1 args; .ok (.jae l)
  | .jl => do let l ← argsLocation1 args; .ok (.jl l)
  | .jle => do let l ← argsLocation1 args; .ok (.jle l)
  | .jb => do let l ← argsLocation1 args; .ok (.jb l)
  | .jbe => do let l ← argsLocation1 args; .ok (.jbe l)
  | .jo => do let l ← argsLocation1 args; .ok (.jo l)
  | .jno => do let l ← argsLocation1 args; .ok (.jno l)
  | .jz => do let l ← argsLocation1 args; .ok (.jz l)
  | .jnz => do let l ← argsLocation1 args; .ok (.jnz l)
  | .js => do let l ← argsLocation1 args; .ok (.js l)
  | .jns => do let l ← argsLocation1 args; .ok (.jns l)
  | .call => do let l ← argsLocation1 args; .ok (.call l)
  | .ret => .ok .ret

/-- `Instr::decode` (decode.rs lines 51-62): read the 12-bit opcode, look up
kind and layout offset, rebuild the layout from the word (failing with
`InvalidOpcode` when the offset has no layout), then lift the layout into the
kind's operand shape. -/
def Instr.decode (w : Nat) : Except DecodeError Instr :=
  let opcode := opcodeRead w 0
  let (kind, opcodeOffset) := InstrKind.fromOpcode opcode
  match Layout.fromBinary w opcodeOffset with
  | none => .error (.invalidOpcode opcode)
  | some args => instrFromLayout kind args

example : Instr.decode (Layout.toBinary (.l2 3 42) 228) = .ok (.mov (.register 3) (.immediate 42)) := rfl

/-! ## Executor (src/vm/src/execute.rs)

One handler per instruction.  Handlers that are `todo!()` stubs in the
source (`div`, `divr`, `divu`, `rem`, `remu`, `and`, `or`, `xor`, `not`,
`test`, `js`, `jns`) are modelled with the distinguished outcome
`ExecResult.todo` (a `todo!()` panics unconditionally when reached). -/

/-- `ExecuteError`. -/
inductive ExecuteError
  | ioError
  | outOfBounds (e : OutOfBounds)
  | divideByZero
deriving DecidableEq, Repr

/-- The outcome of one handler: a new machine state, a typed error, or a
`todo!()` panic. -/
inductive ExecResult
  | ok (m : Machine)
  | error (e : ExecuteError)
  | todo
deriving DecidableEq, Repr

/-- The signed 64-bit addition `signed_lhs.checked_add(signed_rhs)` returns
`None` exactly when the mathematical sum leaves the `i64` range. -/
def i64AddOverflows (a b : Int) : Prop := a + b < -((2 : Int) ^ 63) ∨ (2 : Int) ^ 63 ≤ a + b

instance (a b : Int) : Decidable (i64AddOverflows a b) := by unfold i64AddOverflows; infer_instance

/-- The signed 64-bit subtraction `signed_lhs.checked_sub(signed_rhs)`
returns `None` exactly when the difference leaves the `i64` range. -/
def i64SubOverflows (a b : Int) : Prop := a - b < -((2 : Int) ^ 63) ∨ (2 : Int) ^ 63 ≤ a - b

instance (a b : Int) : Decidable (i64SubOverflows a b) := by unfold i64SubOverflows; infer_instance

/-- The flags `Add::execute` computes from `lhs` and `rhs` (execute.rs lines
46-86): carry on unsigned wrap, overflow on signed wrap, zero on a zero
result, sign on bit 63 of the result. -/
def addFlags (lhs rhs : Nat) : Flags :=
  let result := (lhs + rhs) % 2 ^ 64
  { carry := if 2 ^ 64 ≤ lhs + rhs then .carry else .noCarry
    zero := if result = 0 then .zero else .nonZero
    sign := if 0 < (1 <<< 63) &&& result then .negativeSign else .positiveSign
    overflow := if i64AddOverflows (i64OfU64 lhs) (i64OfU64 rhs) then .overflow else .noOverflow }

/-- The flags `Sub::execute` computes from `lhs` and `rhs` (execute.rs lines
88-128); `Cmp::execute` (lines 333-372) computes exactly the same four
values. -/
def subFlags (lhs rhs : Nat) : Flags :=
  let result := wrapSub lhs rhs
  { carry := if lhs < rhs then .carry else .noCarry
    zero := if result = 0 then .zero else .nonZero
    sign := if 0 < (1 <<< 63) &&& result then .negativeSign else .positiveSign
    overflow := if i64SubOverflows (i64OfU64 lhs) (i64OfU64 rhs) then .overflow else .noOverflow }

/-- `i128::overflowing_mul` wraps into the `i128` range. -/
def wrapI128 (v : Int) : Int := ((v + 2 ^ 127) % 2 ^ 128) - 2 ^ 127

/-- Shared shape of the eight load handlers (execute.rs lines 385-532):
read `nbytes` bytes at the effective address (or one stdin byte, widened by
zero-extension, when the address is `STDIN_ADDR`), pass the raw value through
`widen` (sign-extending reinterpretation for `loadN`, identity for `loaduN`)
and store the low 64 bits into `dest`. -/
def execLoad (m : Machine) (dest : Destination) (loc : Location) (nbytes : Nat)
    (widen : Nat → Int) : ExecResult :=
  let addr := loc.intoValue m
  if addr = STDIN_ADDR then
    let (b, io') := m.io.readByte
    let value := b.getD EOF_BYTE
    .ok { (m.storeDest dest (u64OfInt (widen value))) with io := io' }
  else
    match memRead m.memory addr nbytes with
    | .error e => .error (.outOfBounds e)
    | .ok value => .ok (m.storeDest dest (u64OfInt (widen value)))

/-- Shared shape of the four store handlers (execute.rs lines 534-600):
truncate the source to `nbytes` bytes; a store at `STDOUT_ADDR` writes the
value (reinterpreted as `u32`) to stdout, any other address writes the bytes
to memory. -/
def execStore (m : Machine) (loc : Location) (source : Source) (nbytes : Nat) : ExecResult :=
  let addr := loc.intoValue m
  let value := source.intoValue m % 2 ^ (8 * nbytes)
  if addr = STDOUT_ADDR then
    .ok { m with io := m.io.writeBytes (value % 2 ^ 32) }
  else
    match memWrite m.memory addr nbytes value with
    | .error e => .error (.outOfBounds e)
    | .ok mem' => .ok { m with memory := mem' }

/-- Shared shape of the conditional jumps: set the program counter to the
location's value when the condition on the flags holds. -/
def execJumpIf (m : Machine) (loc : Location) (cond : Bool) : ExecResult :=
  let addr := loc.intoValue m
  if cond then .ok { m with programCounter := addr } else .ok m

/-- `Execute::execute`, one case per instruction (execute.rs lines 39-937,
dispatched through `impl Execute for Instr` in decode.rs lines 71-78). -/
def Instr.execute (i : Instr) (m : Machine) : ExecResult :=
  match i with
  | .nop => .ok m
  | .add dest source =>
    let lhs := dest.intoValue m
    let rhs := source.intoValue m
    .ok { (m.storeDest dest ((lhs + rhs) % 2 ^ 64)) with flags := addFlags lhs rhs }
  | .sub dest source =>
    let lhs := dest.intoValue m
    let rhs := source.intoValue m
    .ok { (m.storeDest dest (wrapSub lhs rhs)) with flags := subFlags lhs rhs }
  | .mul dest source =>
    let lhs := i64OfU64 (dest.intoValue m)
    let rhs := i64OfU64 (source.intoValue m)
    let result := wrapI128 (lhs * rhs)
    let overflow := (lhs * rhs < -((2 : Int) ^ 127) ∨ (2 : Int) ^ 127 ≤ lhs * rhs)
      ∨ result ≠ i64OfU64 (u64OfInt result)
    .ok { (m.storeDest dest (u64OfInt result)) with flags :=
      { m.flags with carry := if overflow then .carry else .noCarry
                     overflow := if overflow then .overflow else .noOverflow } }
  | .mull destHi dest source =>
    let lhs := i64OfU64 (dest.intoValue m)
    let rhs := i64OfU64 (source.intoValue m)
    let overflow := lhs * rhs < -((2 : Int) ^ 127) ∨ (2 : Int) ^ 127 ≤ lhs * rhs
    let result := i128Bits (wrapI128 (lhs * rhs))
    .ok { ((m.storeDest dest (result % 2 ^ 64)).storeDest destHi ((result >>> 64) % 2 ^ 64))
      with flags :=
      { m.flags with carry := if overflow then .carry else .noCarry
                     overflow := if overflow then .overflow else .noOverflow } }
  | .mulu dest source =>
    let lhs := dest.intoValue m
    let rhs := source.intoValue m
    let result := lhs * rhs % 2 ^ 128
    let overflow := 2 ^ 128 ≤ lhs * rhs ∨ result ≠ result % 2 ^ 64
    .ok { (m.storeDest dest (result % 2 ^ 64)) with flags :=
      { m.flags with carry := if overflow then .carry else .noCarry
                     overflow := if overflow then .overflow else .noOverflow } }
  | .mullu destHi dest source =>
    let lhs := dest.intoValue m
    let rhs := source.intoValue m
    let result := lhs * rhs % 2 ^ 128
    let overflow := 2 ^ 128 ≤ lhs * rhs
    .ok { ((m.storeDest dest (result % 2 ^ 64)).storeDest destHi ((result >>> 64) % 2 ^ 64))
      with flags :=
      { m.flags with carry := if overflow then .carry else .noCarry
                     overflow := if overflow then .overflow else .noOverflow } }
  | .div _ _ => .todo
  | .divr _ _ _ => .todo
  | .divu _ _ => .todo
  | .divru destRem dest source =>
    let lhs := dest.intoValue m
    let rhs := source.intoValue m
    if rhs = 0 then .error .divideByZero
    else .ok ((m.storeDest dest (lhs / rhs)).storeDest destRem (lhs % rhs))
  | .rem _ _ => .todo
  | .remu _ _ => .todo
  | .and _ _ => .todo
  | .or _ _ => .todo
  | .xor _ _ => .todo
  | .not _ => .todo
  | .test _ _ => .todo
  | .cmp source1 source2 =>
    let lhs := source1.intoValue m
    let rhs := source2.intoValue m
    .ok { m with flags := subFlags lhs rhs }
  | .mov dest source => .ok (m.storeDest dest (source.intoValue m))
  | .load1 dest loc => execLoad m dest loc 1 (signedOfBits 8)
  | .loadu1 dest loc => execLoad m dest loc 1 (fun v => (v : Int))
  | .load2 dest loc => execLoad m dest loc 2 (signedOfBits 16)
  | .loadu2 dest loc => execLoad m dest loc 2 (fun v => (v : Int))
  | .load4 dest loc => execLoad m dest loc 4 (signedOfBits 32)
  | .loadu4 dest loc => execLoad m dest loc 4 (fun v => (v : Int))
  | .load8 dest loc => execLoad m dest loc 8 (fun v => (v : Int))
  | .loadu8 dest loc => execLoad m dest loc 8 (fun v => (v : Int))
  | .store1 loc source => execStore m loc source 1
  | .store2 loc source => execStore m loc source 2
  | .store4 loc source => execStore m loc source 4
  | .store8 loc source => execStore m loc source 8
  | .push source =>
    let sp := Registers.load m.registers SP_REG
    let stackTop := wrapSub sp 8
    let m1 := { m with registers := Registers.store m.registers SP_REG stackTop }
    let value := source.intoValue m1
    match memWrite m1.memory stackTop 8 value with
    | .error e => .error (.outOfBounds e)
    | .ok mem' => .ok { m1 with memory := mem' }
  | .pop dest =>
    let stackTop := Registers.load m.registers SP_REG
    match memRead m.memory stackTop 8 with
    | .error e => .error (.outOfBounds e)
    | .ok value =>
      let m1 := m.storeDest dest value
      .ok { m1 with registers := Registers.store m1.registers SP_REG ((stackTop + 8) % 2 ^ 64) }
  | .jmp loc => .ok { m with programCounter := loc.intoValue m }
  | .je loc => execJumpIf m loc (m.flags.zero = .zero)
  | .jne loc => execJumpIf m loc (m.flags.zero = .nonZero)
  | .jg loc => execJumpIf m loc
      (((m.flags.sign = .negativeSign ∧ m.flags.overflow = .overflow) ∨
        (m.flags.sign = .positiveSign ∧ m.flags.overflow = .noOverflow)) ∧
       m.flags.zero = .nonZero)
  | .jge loc => execJumpIf m loc
      (m.flags.zero = .zero ∨
       (m.flags.sign = .negativeSign ∧ m.flags.overflow = .overflow) ∨
       (m.flags.sign = .positiveSign ∧ m.flags.overflow = .noOverflow))
  | .ja loc => execJumpIf m loc (m.flags.carry = .noCarry ∧ m.flags.zero = .nonZero)
  | .jae loc => execJumpIf m loc (m.flags.carry = .noCarry ∨ m.flags.zero = .zero)
  | .jl loc => execJumpIf m loc
      ((m.flags.sign = .negativeSign ∧ m.flags.overflow = .noOverflow) ∨
       (m.flags.sign = .positiveSign ∧ m.flags.overflow = .overflow))
  | .jle loc => execJumpIf m loc
      (m.flags.zero = .zero ∨
       (m.flags.sign = .negativeSign ∧ m.flags.overflow = .noOverflow) ∨
       (m.flags.sign = .positiveSign ∧ m.flags.overflow = .overflow))
  | .jb loc => execJumpIf m loc (m.flags.carry = .carry)
  | .jbe loc => execJumpIf m loc (m.flags.carry = .carry ∨ m.flags.zero = .zero)
  | .jo loc => execJumpIf m loc (m.flags.overflow = .overflow)
  | .jno loc => execJumpIf m loc (m.flags.overflow = .noOverflow)
  | .jz loc => execJumpIf m loc (m.flags.zero = .zero)
  | .jnz loc => execJumpIf m loc (m.flags.zero = .nonZero)
  | .js _ => .todo
  | .jns _ => .todo
  | .call loc =>
    let sp := Registers.load m.registers SP_REG
    let stackTop := wrapSub sp 8
    let m1 := { m with registers := Registers.store m.registers SP_REG stackTop }
    match memWrite m1.memory stackTop 8 m1.programCounter with
    | .error e => .error (.outOfBounds e)
    | .ok mem' =>
      let m2 := { m1 with memory := mem' }
      .ok { m2 with programCounter := Location.intoValue loc m2 }
  | .ret =>
    let stackTop := Registers.load m.registers SP_REG
    match memRead m.memory stackTop 8 with
    | .error e => .error (.outOfBounds e)
    | .ok value =>
      .ok { m with programCounter := value
                   registers := Registers.store m.registers SP_REG ((stackTop + 8) % 2 ^ 64) }

/-! ## Machine driver (src/vm/src/machine.rs) -/

/-- Whether the program should continue running (`ProgramStatus`;
`Continue` is rendered `cont`). -/
inductive ProgramStatus
  | cont
  | quit
deriving DecidableEq, Repr

/-- The errors a fetch-decode-execute step can surface: a memory error on
fetch, a decode error, or a handler error. -/
inductive StepError
  | outOfBounds (e : OutOfBounds)
  | decodeError (e : DecodeError)
  | executeError (e : ExecuteError)
deriving DecidableEq, Repr

/-- The outcome of `Machine::step`. -/
inductive StepResult
  | ok (status : ProgramStatus) (m : Machine)
  | error (e : StepError)
  | todo
deriving DecidableEq, Repr

/-- `Machine::step` (machine.rs lines 45-57): read the 8-byte word at the
program counter, decode it, advance the program counter by the instruction
size (8 bytes) *before* executing, run the handler, and report `Quit` when
the program counter has reached the sentinel `u64::MAX`. -/
def Machine.step (m : Machine) : StepResult :=
  match memRead m.memory m.programCounter 8 with
  | .error e => .error (.outOfBounds e)
  | .ok w =>
    match Instr.decode w with
    | .error e => .error (.decodeError e)
    | .ok instr =>
      let m := { m with programCounter := (m.programCounter + 8) % 2 ^ 64 }
      match instr.execute m with
      | .error e => .error (.executeError e)
      | .todo => .todo
      | .ok m' =>
        if m'.programCounter = QUIT_ADDR then .ok .quit m' else .ok .cont m'

/-! ## Statements and label offsets (src/asm/src/asm.rs,
src/asm/src/label_offsets.rs) -/

/-- `StaticBytesValue` (asm.rs lines 131-160): the `.b1`/`.b2`/`.b4`/`.b8`
payloads, little-endian byte arrays of the directive's width. -/
inductive StaticBytesValue
  | b1 (bytes : List Nat)
  | b2 (bytes : List Nat)
  | b4 (bytes : List Nat)
  | b8 (bytes : List Nat)
deriving DecidableEq, Repr

/-- `StaticBytesValue::size_bytes` (asm.rs lines 150-159). -/
def StaticBytesValue.sizeBytes : StaticBytesValue → Nat
  | .b1 _ => 1
  | .b2 _ => 2
  | .b4 _ => 4
  | .b8 _ => 8

/-- `StaticData` (asm.rs lines 84-113): the four static-data directives. -/
inductive StaticData
  | staticBytes (value : StaticBytesValue)
  | staticZero (nbytes : Nat)
  | staticUninit (nbytes : Nat)
  | staticByteStr (bytes : List Nat)
deriving DecidableEq, Repr

/-- `StaticData::size_bytes` (asm.rs lines 104-112 with lines 123-128,
170-175, 185-190, 200-205): declared width for `.bN`, declared byte count
for `.zero`/`.uninit`, literal length for `.bytes`. -/
def StaticData.sizeBytes : StaticData → Nat
  | .staticBytes v => v.sizeBytes
  | .staticZero nbytes => nbytes
  | .staticUninit nbytes => nbytes
  | .staticByteStr bytes => bytes.length

/-- `StmtKind` (asm.rs lines 59-82): a static-data directive or an
instruction.  `asm::Instr::size_bytes` returns 8 for every instruction
regardless of its operands (instr.rs lines 65-69), so the statement-level
embedding does not need the instruction's operands. -/
inductive StmtKind
  | staticData (d : StaticData)
  | instr
deriving DecidableEq, Repr

/-- `StmtKind::size_bytes` (asm.rs lines 74-81). -/
def StmtKind.sizeBytes : StmtKind → Nat
  | .staticData d => d.sizeBytes
  | .instr => 8

/-- `Stmt` (asm.rs lines 43-57): the labels preceding a statement (their
names are guaranteed unique program-wide) and its kind. -/
structure Stmt where
  labels : List String
  kind : StmtKind
deriving DecidableEq, Repr

/-- `Program` (asm.rs lines 18-35): the optional `.code` and `.static`
sections, each an ordered statement list. -/
structure Program where
  codeSection : Option (List Stmt)
  staticSection : Option (List Stmt)
deriving DecidableEq, Repr

/-- `Program::iter_all_stmts` (asm.rs lines 27-34): all statements, code
section first, then static section. -/
def Program.iterAllStmts (prog : Program) : List Stmt :=
  prog.codeSection.getD [] ++ prog.staticSection.getD []

/-- One step of `LabelOffsets::new`: insert every label of a statement at
the current offset (`offsets.insert(label.clone(), current_offset)`). -/
def insertLabels (labels : List String) (offset : Nat) (acc : String → Option Nat) :
    String → Option Nat :=
  labels.foldl (fun acc l => fun name => if name = l then some offset else acc name) acc

/-- The statement walk of `LabelOffsets::new` (label_offsets.rs lines
12-25): accumulate byte offsets over the statements, inserting each
statement's labels at the offset reached so far. -/
def labelOffsetsGo : List Stmt → Nat → (String → Option Nat) → String → Option Nat
  | [], _, acc => acc
  | stmt :: rest, offset, acc =>
    labelOffsetsGo rest (offset + stmt.kind.sizeBytes) (insertLabels stmt.labels offset acc)

/-- `LabelOffsets::new` (label_offsets.rs lines 12-25): the offsets map is
built by a single pass over code-then-static statements starting at offset
0 from the empty map. -/
def LabelOffsets.new (prog : Program) : String → Option Nat :=
  labelOffsetsGo prog.iterAllStmts 0 (fun _ => none)

/-- `LabelOffsets::lookup` (label_offsets.rs lines 28-48): the label's
offset, or 0 with an error diagnostic (`true`) when the label is unknown. -/
def LabelOffsets.lookup (offsets : String → Option Nat) (name : String) : Nat × Bool :=
  match offsets name with
  | some value => (value, false)
  | none => (0, true)

/-- The total byte size of a list of statements. -/
def stmtsSizeBytes (stmts : List Stmt) : Nat :=
  (stmts.map (fun s => s.kind.sizeBytes)).sum

/-- All label names of a statement list, in insertion order. -/
def allLabels (stmts : List Stmt) : List String :=
  stmts.flatMap (fun s => s.labels)

/-! ## Helper lemmas -/

theorem u64OfInt_natCast (n : Nat) (h : n < 2 ^ 64) : u64OfInt n = n := by
  unfold u64OfInt
  rw [Int.emod_eq_of_lt (by positivity) (by exact_mod_cast h)]
  simp

theorem Registers.length_store (regs : List Nat) (r v : Nat) :
    (Registers.store regs r v).length = regs.length := by
  simp [Registers.store]

theorem Registers.load_store_self (regs : List Nat) (r v : Nat) (h : r < regs.length) :
    Registers.load (Registers.store regs r v) r = v := by
  unfold Registers.load Registers.store
  rw [List.get?_eq_getElem?, List.getElem?_set_eq_of_lt _ h]
  rfl

theorem Registers.load_store_ne (regs : List Nat) (r r' v : Nat) (h : r ≠ r') :
    Registers.load (Registers.store regs r v) r' = Registers.load regs r' := by
  unfold Registers.load Registers.store
  rw [List.get?_eq_getElem?, List.getElem?_set_ne h, ← List.get?_eq_getElem?]

theorem leBytes_length (n v : Nat) : (leBytes n v).length = n := by
  induction n generalizing v with
  | zero => rfl
  | succ k ih => simp [leBytes, ih]

theorem leCombine_leBytes (n v : Nat) : leCombine (leBytes n v) = v % 2 ^ (8 * n) := by
  induction n generalizing v with
  | zero => simp [leBytes, leCombine, Nat.mod_one]
  | succ k ih =>
    have h : 2 ^ (8 * (k + 1)) = 256 * 2 ^ (8 * k) := by ring
    rw [leBytes, leCombine, ih, h, Nat.mod_mul]

theorem memRead_after_write (mem : List Nat) (a n v : Nat) (mem' : List Nat)
    (hv : v < 2 ^ (8 * n)) (h : memWrite mem a n v = .ok mem') :
    memRead mem' a n = .ok v := by
  unfold memWrite at h
  split at h
  case isFalse => exact absurd h (by simp)
  case isTrue hle =>
    have hmem' : mem' = mem.take a ++ leBytes n v ++ mem.drop (a + n) := by
      cases h; rfl
    have hta : (mem.take a).length = a := by
      rw [List.length_take]
      omega
    have hlen : mem'.length = mem.length := by
      rw [hmem']
      simp [leBytes_length, hta]
      omega
    have hslice : (mem'.drop a).take n = leBytes n v := by
      rw [hmem', List.append_assoc, List.drop_left' hta, List.take_left' (leBytes_length n v)]
    unfold memRead
    rw [if_pos (by omega), hslice, leCombine_leBytes, Nat.mod_eq_of_lt hv]

theorem wrapSub_add_cancel (a : Nat) (h : a < 2 ^ 64) : (wrapSub a 8 + 8) % 2 ^ 64 = a := by
  unfold wrapSub
  omega

theorem signBit_pos_iff (x : Nat) : 0 < (1 <<< 63) &&& x ↔ x.testBit 63 := by
  rw [Nat.one_shiftLeft, Nat.and_comm, Nat.and_two_pow]
  rcases h : x.testBit 63 <;> simp [h]

theorem ite_cf_eq_carry (c : Prop) [Decidable c] :
    (if c then CF.carry else CF.noCarry) = CF.carry ↔ c := by
  split_ifs with h <;> simp [h]

theorem ite_zf_eq_zero (c : Prop) [Decidable c] :
    (if c then ZF.zero else ZF.nonZero) = ZF.zero ↔ c := by
  split_ifs with h <;> simp [h]

theorem ite_sf_eq_neg (c : Prop) [Decidable c] :
    (if c then SF.negativeSign else SF.positiveSign) = SF.negativeSign ↔ c := by
  split_ifs with h <;> simp [h]

theorem ite_of_eq_overflow (c : Prop) [Decidable c] :
    (if c then OF.overflow else OF.noOverflow) = OF.overflow ↔ c := by
  split_ifs with h <;> simp [h]

/-! ## Claims -/

/-- A concrete machine used to evaluate handlers on explicit inputs: 64
bytes of zeroed memory, the register file of `Registers::new(64)`, default
flags, empty I/O. -/
def sampleMachine : Machine :=
  { programCounter := 0
    memory := List.replicate 64 0
    registers := Registers.new 64
    flags := Flags.default
    io := ⟨[], []⟩ }

/-- C2: every instruction kind's base opcode is a multiple of 12,
consecutive kinds' base opcodes `b1 < b2` satisfy `b1 + 10 < b2`, and for
every kind with base opcode `b` and every offset `o ∈ [0, 10]`,
`InstrKind::from_opcode (b + o)` returns that kind together with the layout
offset `o`. -/
theorem base_opcodes_multiples_and_from_opcode :
    (∀ e ∈ opcodeTable, e.1 % 12 = 0) ∧
    (∀ p ∈ opcodeTable.zip opcodeTable.tail, p.1.1 + 10 < p.2.1) ∧
    (∀ e ∈ opcodeTable, ∀ o ∈ List.range 11, InstrKind.fromOpcode (e.1 + o) = (e.2, o)) := by
  decide

/-- C2's theorem applied at a concrete input: `mov` has base opcode 228 and
`from_opcode (228 + 7)` recovers `(mov, 7)`. -/
theorem base_opcodes_witness : InstrKind.fromOpcode (228 + 7) = (.mov, 7) :=
  base_opcodes_multiples_and_from_opcode.2.2 (228, .mov) (by decide) 7 (by decide)

/-- C1 fails on the code: `-1` is accepted by S46 validation (so
`mov $3, -1` is a valid L2 instruction at base opcode 228), yet
`Imm::write` ORs the unmasked 128-bit sign pattern into the word, producing
the all-ones word; its opcode reads back as 4095, which `from_opcode` maps
to kind `ret` with offset 3471, and decoding reports an invalid opcode
instead of returning the original instruction. -/
theorem encode_negative_immediate_corrupts :
    validateImmediate 46 (-1) = (-1, false) ∧
    Layout.toBinary (.l2 3 (-1)) 228 = 2 ^ 64 - 1 ∧
    opcodeRead (Layout.toBinary (.l2 3 (-1)) 228) 0 = 4095 ∧
    InstrKind.fromOpcode 4095 = (.ret, 3471) ∧
    Instr.decode (Layout.toBinary (.l2 3 (-1)) 228) = .error (.invalidOpcode 4095) :=
  ⟨by decide, by decide, by decide, by decide, rfl⟩

/-- C4 fails on the code: `div`, `divr`, `divu`, `rem` and `remu` are
`todo!()` stubs that panic on any input (here: the all-zero sample machine,
whose source operand register 1 holds 0 and nonzero register value 64 in
SP), while only `divru` implements the claimed behaviour: divide-by-zero
error exactly when the source is zero, quotient into `dest` and remainder
into `dest_rem` otherwise. -/
theorem div_family_todo_stubs :
    Instr.execute (.div (.register 0) (.register 1)) sampleMachine = .todo ∧
    Instr.execute (.divr (.register 0) (.register 1) (.register 2)) sampleMachine = .todo ∧
    Instr.execute (.divu (.register 0) (.register 1)) sampleMachine = .todo ∧
    Instr.execute (.rem (.register 0) (.register 1)) sampleMachine = .todo ∧
    Instr.execute (.remu (.register 0) (.register 1)) sampleMachine = .todo ∧
    Instr.execute (.divru (.register 0) (.register 1) (.register 2)) sampleMachine
      = .error .divideByZero ∧
    Instr.execute (.divru (.register 1) (.register 0) (.immediate 7)) sampleMachine
      = .ok ((sampleMachine.storeDest (.register 0) 0).storeDest (.register 1) 0) := by
  decide

/-- C9: for an `n`-bit immediate field (`n ∈ {52, 46, 40, 30, 26}`),
validation accepts a value unchanged with no diagnostic exactly when it
lies in the signed `n`-bit range `[-2^(n-1), 2^(n-1)-1]`; outside that
range it emits an error diagnostic and recovers with 0 (which `Imm::new`
then encodes). -/
theorem validate_immediate_signed_range (n : Nat) (v : Int) (hn : n ∈ immSizes) :
    (validateImmediate n v = (v, false) ↔
      -((2 : Int) ^ (n - 1)) ≤ v ∧ v ≤ (2 : Int) ^ (n - 1) - 1) ∧
    (¬(-((2 : Int) ^ (n - 1)) ≤ v ∧ v ≤ (2 : Int) ^ (n - 1) - 1) →
      validateImmediate n v = (0, true)) := by
  clear hn
  by_cases h : -((2 : Int) ^ (n - 1)) ≤ v ∧ v ≤ (2 : Int) ^ (n - 1) - 1
  · refine ⟨?_, fun hc => absurd h hc⟩
    simp [validateImmediate, h]
  · have hval : validateImmediate n v = (0, true) := by simp [validateImmediate, h]
    refine ⟨?_, fun _ => hval⟩
    rw [hval]
    simp [Prod.ext_iff, h]

/-- C9's theorem applied at concrete inputs: for the 26-bit size,
`2^25 - 1` is accepted unchanged and `2^25` is rejected with recovery
value 0. -/
theorem validate_immediate_witness :
    validateImmediate 26 (2 ^ 25 - 1) = (2 ^ 25 - 1, false) ∧
    validateImmediate 26 (2 ^ 25) = (0, true) := by
  constructor
  · exact ((validate_immediate_signed_range 26 (2 ^ 25 - 1) (by decide)).1).2 (by norm_num)
  · exact (validate_immediate_signed_range 26 (2 ^ 25) (by decide)).2 (by norm_num)

/-- C3: for all 64-bit `u`, `v`, executing `mov r, u` then `add r, v` leaves
register `r` holding `(u + v) mod 2^64`, with CF set iff the unsigned 64-bit
addition overflows, OF set iff the signed 64-bit addition overflows, ZF set
iff the result is 0, and SF set iff bit 63 of the result is 1. -/
theorem mov_add_result_and_flags (m m1 m2 : Machine) (r u v : Nat)
    (hr : r < 64) (hlen : m.registers.length = 64)
    (hu : u < 2 ^ 64) (hv : v < 2 ^ 64)
    (h1 : Instr.execute (.mov (.register r) (.immediate (u : Int))) m = .ok m1)
    (h2 : Instr.execute (.add (.register r) (.immediate (v : Int))) m1 = .ok m2) :
    Registers.load m2.registers r = (u + v) % 2 ^ 64 ∧
    (m2.flags.carry = .carry ↔ 2 ^ 64 ≤ u + v) ∧
    (m2.flags.overflow = .overflow ↔ i64AddOverflows (i64OfU64 u) (i64OfU64 v)) ∧
    (m2.flags.zero = .zero ↔ (u + v) % 2 ^ 64 = 0) ∧
    (m2.flags.sign = .negativeSign ↔ ((u + v) % 2 ^ 64).testBit 63) := by
  simp only [Instr.execute, Source.intoValue, Machine.storeDest,
    u64OfInt_natCast u hu, ExecResult.ok.injEq] at h1
  subst h1
  simp only [Instr.execute, Source.intoValue, Destination.intoValue, Machine.storeDest,
    u64OfInt_natCast v hv, ExecResult.ok.injEq] at h2
  rw [Registers.load_store_self m.registers r u (hlen ▸ hr)] at h2
  subst h2
  refine ⟨?_, ?_, ?_, ?_, ?_⟩
  · exact Registers.load_store_self _ r _ (by rw [Registers.length_store, hlen]; exact hr)
  · simp only [addFlags]
    exact ite_cf_eq_carry _
  · simp only [addFlags]
    exact ite_of_eq_overflow _
  · simp only [addFlags]
    exact ite_zf_eq_zero _
  · simp only [addFlags]
    rw [ite_sf_eq_neg]
    exact signBit_pos_iff _

/-- The machine after `mov $0, 32` on the sample machine. -/
def movAddM1 : Machine := sampleMachine.storeDest (.register 0) 32

/-- The machine after `mov $0, 32; add $0, -32` (the immediate -32 reaches
`Add` as the 64-bit value `2^64 - 32`). -/
def movAddM2 : Machine :=
  { (movAddM1.storeDest (.register 0) ((32 + (2 ^ 64 - 32)) % 2 ^ 64)) with
    flags := addFlags 32 (2 ^ 64 - 32) }

/-- C3's theorem applied at the spec's concrete scenario 1:
`mov $0, 32; add $0, -32` gives `$0 = 0` with flags Carry, Zero,
PositiveSign, NoOverflow. -/
theorem mov_add_witness :
    Registers.load movAddM2.registers 0 = (32 + (2 ^ 64 - 32)) % 2 ^ 64 ∧
    (movAddM2.flags.carry = .carry ↔ 2 ^ 64 ≤ 32 + (2 ^ 64 - 32)) ∧
    (movAddM2.flags.overflow = .overflow ↔
      i64AddOverflows (i64OfU64 32) (i64OfU64 (2 ^ 64 - 32))) ∧
    (movAddM2.flags.zero = .zero ↔ (32 + (2 ^ 64 - 32)) % 2 ^ 64 = 0) ∧
    (movAddM2.flags.sign = .negativeSign ↔ ((32 + (2 ^ 64 - 32)) % 2 ^ 64).testBit 63) :=
  mov_add_result_and_flags sampleMachine movAddM1 movAddM2 0 32 (2 ^ 64 - 32)
    (by decide) (by decide) (by decide) (by decide) (by decide) (by decide)

/-- C7: `cmp` sets the four flags to exactly the values `sub` produces on
the same operand values, while leaving every register, the program counter,
the memory and the I/O state unchanged. -/
theorem cmp_flags_match_sub (m m1 m2 : Machine) (s1 s2 : Source) (d : Destination) (s : Source)
    (hl : d.intoValue m = s1.intoValue m) (hr : s.intoValue m = s2.intoValue m)
    (h1 : Instr.execute (.cmp s1 s2) m = .ok m1)
    (h2 : Instr.execute (.sub d s) m = .ok m2) :
    m1.flags = m2.flags ∧
    m1.registers = m.registers ∧
    m1.programCounter = m.programCounter ∧
    m1.memory = m.memory ∧
    m1.io = m.io := by
  simp only [Instr.execute, ExecResult.ok.injEq] at h1 h2
  subst h1
  subst h2
  obtain ⟨rd⟩ := d
  simp only [Machine.storeDest]
  exact ⟨by rw [hl, hr], by trivial, by trivial, by trivial, by trivial⟩

/-- The machine after `cmp $1, $0` on the sample machine (operands 0 and 0:
flags NoCarry, Zero, PositiveSign, NoOverflow). -/
def cmpM1 : Machine := { sampleMachine with flags := subFlags 0 0 }

/-- The machine after `sub $1, $0` on the sample machine. -/
def subM2 : Machine :=
  { (sampleMachine.storeDest (.register 1) (wrapSub 0 0)) with flags := subFlags 0 0 }

/-- C7's theorem applied at a concrete input: `cmp $1, $0` on the sample
machine produces exactly the flags of `sub $1, $0` and changes nothing
else. -/
theorem cmp_flags_witness :
    cmpM1.flags = subM2.flags ∧
    cmpM1.registers = sampleMachine.registers ∧
    cmpM1.programCounter = sampleMachine.programCounter ∧
    cmpM1.memory = sampleMachine.memory ∧
    cmpM1.io = sampleMachine.io :=
  cmp_flags_match_sub sampleMachine cmpM1 subM2 (.register 1) (.register 0)
    (.register 1) (.register 0) (by decide) (by decide) (by decide) (by decide)

/-- C10: a register field read from any 64-bit word at any of the MSB
offsets the layouts use (all `≤ 58`) is below 64, so the unchecked register
array accesses of `Registers::load`/`store` stay inside the 64-entry array:
the checked lookup succeeds and a store keeps the 64-entry length. -/
theorem reg_read_always_in_bounds (w k : Nat) (hk : k ≤ 58) :
    regRead w k < 64 ∧
    ∀ regs : List Nat, regs.length = 64 →
      (Registers.loadChecked regs (regRead w k)).isSome ∧
      ∀ v, (Registers.store regs (regRead w k) v).length = 64 := by
  clear hk
  have hb : regRead w k < 64 := by
    unfold regRead
    have hmask : (2 ^ 64 - 1) >>> (REGISTERS - 6) = 63 := by decide
    rw [hmask]
    exact lt_of_le_of_lt Nat.and_le_right (by norm_num)
  refine ⟨hb, fun regs hlen => ⟨?_, fun v => ?_⟩⟩
  · unfold Registers.loadChecked
    simp [List.get?_eq_getElem?, List.getElem?_eq_getElem (hlen ▸ hb)]
  · rw [Registers.length_store, hlen]

/-- C10's theorem applied at a concrete input: the register field of the
all-ones word at MSB offset 12 is in bounds for a 64-entry register file. -/
theorem reg_read_bounds_witness :
    regRead (2 ^ 64 - 1) 12 < 64 ∧
    (Registers.loadChecked (List.replicate 64 0) (regRead (2 ^ 64 - 1) 12)).isSome ∧
    (Registers.store (List.replicate 64 0) (regRead (2 ^ 64 - 1) 12) 5).length = 64 :=
  ⟨(reg_read_always_in_bounds (2 ^ 64 - 1) 12 (by decide)).1,
   ((reg_read_always_in_bounds (2 ^ 64 - 1) 12 (by decide)).2 _ (by simp)).1,
   ((reg_read_always_in_bounds (2 ^ 64 - 1) 12 (by decide)).2 _ (by simp)).2 5⟩

theorem signedOfBits_of_lt (bits b : Nat) (h : b < 2 ^ (bits - 1)) :
    signedOfBits bits b = b := by
  unfold signedOfBits
  rw [if_pos h]

theorem u64OfInt_signedOfBits8 (b : Nat) (hb : b < 256) :
    u64OfInt (signedOfBits 8 b) = if b < 128 then b else 2 ^ 64 - 256 + b := by
  unfold u64OfInt signedOfBits
  split_ifs <;> omega

/-- The sample machine with one pending stdin byte 0xff. -/
def stdinMachine : Machine := { sampleMachine with io := ⟨[255], []⟩ }

/-- C5 fails on the code for `load1`: with the next stdin byte 0xff, a
`load1` from address 0xffff_0004 writes the sign-extension
0xffff_ffff_ffff_ffff into the destination register (`Load1::execute`
reinterprets the byte as `i8` before storing), not the zero-extension
0xff. -/
theorem load1_stdin_sign_extends :
    Instr.execute (.load1 (.register 0) (.immediate 0xffff0004)) stdinMachine
      = .ok { (stdinMachine.storeDest (.register 0) (2 ^ 64 - 1)) with
          io := { stdinMachine.io with input := [] } } ∧
    (2 ^ 64 - 1 : Nat) ≠ 255 := by
  decide

/-- C5 as amended: a load of any width whose effective address is
0xffff_0004 consumes the next stdin byte `b`; `loadu1`, `load2`, `loadu2`,
`load4`, `loadu4`, `load8` and `loadu8` write it zero-extended to 64 bits,
while `load1` writes it sign-extended as an `i8` (identical for `b < 128`);
at end of input every variant writes the byte 0x00, i.e. the value 0. -/
theorem loads_stdin_behaviour (m : Machine) (rd : Nat) (loc : Location)
    (haddr : loc.intoValue m = STDIN_ADDR) :
    (∀ b rest, m.io.input = b :: rest → b < 256 →
      (Instr.execute (.load1 (.register rd) loc) m =
        .ok { (m.storeDest (.register rd) (if b < 128 then b else 2 ^ 64 - 256 + b)) with
          io := { m.io with input := rest } }) ∧
      (∀ i ∈ [Instr.loadu1 (.register rd) loc, .load2 (.register rd) loc,
              .loadu2 (.register rd) loc, .load4 (.register rd) loc,
              .loadu4 (.register rd) loc, .load8 (.register rd) loc,
              .loadu8 (.register rd) loc],
        Instr.execute i m =
          .ok { (m.storeDest (.register rd) b) with io := { m.io with input := rest } })) ∧
    (m.io.input = [] →
      ∀ i ∈ [Instr.load1 (.register rd) loc, .loadu1 (.register rd) loc,
             .load2 (.register rd) loc, .loadu2 (.register rd) loc,
             .load4 (.register rd) loc, .loadu4 (.register rd) loc,
             .load8 (.register rd) loc, .loadu8 (.register rd) loc],
        Instr.execute i m = .ok { (m.storeDest (.register rd) 0) with io := m.io }) := by
  constructor
  · intro b rest hin hb
    have hb64 : b < 2 ^ 64 := by omega
    constructor
    · simp only [Instr.execute, execLoad, haddr, if_pos, Stdio.readByte, hin,
        Option.getD_some, u64OfInt_signedOfBits8 b hb]
    · intro i hi
      simp only [List.mem_cons, List.not_mem_nil, or_false] at hi
      rcases hi with rfl | rfl | rfl | rfl | rfl | rfl | rfl <;>
        simp only [Instr.execute, execLoad, haddr, if_pos, Stdio.readByte, hin,
          Option.getD_some, u64OfInt_natCast b hb64,
          signedOfBits_of_lt 16 b (by omega), signedOfBits_of_lt 32 b (by omega)]
  · intro hin i hi
    simp only [List.mem_cons, List.not_mem_nil, or_false] at hi
    have h0 : u64OfInt ((0 : Nat) : Int) = 0 := u64OfInt_natCast 0 (by norm_num)
    rcases hi with rfl | rfl | rfl | rfl | rfl | rfl | rfl | rfl <;>
      simp only [Instr.execute, execLoad, haddr, if_pos, Stdio.readByte, hin,
        Option.getD_none, EOF_BYTE, h0,
        signedOfBits_of_lt 8 0 (by norm_num), signedOfBits_of_lt 16 0 (by norm_num),
        signedOfBits_of_lt 32 0 (by norm_num)]

/-- The sample machine with one pending stdin byte 7. -/
def stdinMachine7 : Machine := { sampleMachine with io := ⟨[7], []⟩ }

/-- C5's amended theorem applied at a concrete input: `loadu1 $0, [stdin]`
with pending byte 7 writes 7 into `$0` and consumes the byte. -/
theorem loads_stdin_witness :
    Instr.execute (.loadu1 (.register 0) (.immediate 0xffff0004)) stdinMachine7
      = .ok { (stdinMachine7.storeDest (.register 0) 7) with
          io := { stdinMachine7.io with input := [] } } :=
  ((loads_stdin_behaviour stdinMachine7 0 (.immediate 0xffff0004) (by decide)).1
    7 [] rfl (by decide)).2 _ (List.mem_cons_self _ _)

/-- The machine `Call::execute` produces when the push succeeds with memory
`mem'`: SP decremented by 8, the (already advanced) program counter written
at the new stack top, control transferred to the location's value. -/
theorem Machine.step_eq (m : Machine) (w : Nat) (i : Instr)
    (hw : memRead m.memory m.programCounter 8 = .ok w)
    (hd : Instr.decode w = .ok i) :
    m.step =
      match i.execute { m with programCounter := (m.programCounter + 8) % 2 ^ 64 } with
      | .error e => .error (.executeError e)
      | .todo => .todo
      | .ok m' =>
        if m'.programCounter = QUIT_ADDR then .ok .quit m' else .ok .cont m' := by
  unfold Machine.step
  rw [hw]
  dsimp only
  rw [hd]

def callMachine (m : Machine) (loc : Location) (mem' : List Nat) : Machine :=
  let m2 := { m with
    registers := Registers.store m.registers SP_REG
      (wrapSub (Registers.load m.registers SP_REG) 8)
    memory := mem' }
  { m2 with programCounter := Location.intoValue loc m2 }

/-- The machine `Ret::execute` produces when the pop reads `v`: program
counter set to `v`, SP incremented by 8. -/
def retMachine (m : Machine) (v : Nat) : Machine :=
  { m with
    programCounter := v
    registers := Registers.store m.registers SP_REG
      ((Registers.load m.registers SP_REG + 8) % 2 ^ 64) }

theorem step_eq_of_execute_ok (m : Machine) (w : Nat) (i : Instr) (mr : Machine)
    (hw : memRead m.memory m.programCounter 8 = .ok w)
    (hd : Instr.decode w = .ok i)
    (hex : i.execute { m with programCounter := (m.programCounter + 8) % 2 ^ 64 } = .ok mr) :
    m.step = if mr.programCounter = QUIT_ADDR then .ok .quit mr else .ok .cont mr := by
  rw [Machine.step_eq m w i hw hd, hex]

theorem step_ok_machine (m m' : Machine) (s : ProgramStatus) (w : Nat) (i : Instr)
    (mr : Machine)
    (hw : memRead m.memory m.programCounter 8 = .ok w)
    (hd : Instr.decode w = .ok i)
    (hex : i.execute { m with programCounter := (m.programCounter + 8) % 2 ^ 64 } = .ok mr)
    (h : m.step = .ok s m') : m' = mr := by
  rw [step_eq_of_execute_ok m w i mr hw hd hex] at h
  split at h
  · injection h with h1 h2
    exact h2.symm
  · injection h with h1 h2
    exact h2.symm

/-- C6: a fetch-decode-execute step advances the program counter by 8
before the handler runs, so a step whose fetched word decodes to `call`
pushes the address of the instruction following the call (decrementing SP
by 8), and a following step whose fetched word decodes to `ret` pops that
address into the program counter, restoring SP. -/
theorem step_call_then_ret (m m1 m2 : Machine) (loc : Location) (w1 w2 : Nat)
    (s1 s2 : ProgramStatus)
    (hlen : m.registers.length = 64)
    (hsp : Registers.load m.registers SP_REG < 2 ^ 64)
    (hw1 : memRead m.memory m.programCounter 8 = .ok w1)
    (hd1 : Instr.decode w1 = .ok (.call loc))
    (h1 : m.step = .ok s1 m1)
    (hw2 : memRead m1.memory m1.programCounter 8 = .ok w2)
    (hd2 : Instr.decode w2 = .ok .ret)
    (h2 : m1.step = .ok s2 m2) :
    Registers.load m1.registers SP_REG = wrapSub (Registers.load m.registers SP_REG) 8 ∧
    memRead m1.memory (wrapSub (Registers.load m.registers SP_REG) 8) 8 =
      .ok ((m.programCounter + 8) % 2 ^ 64) ∧
    m2.programCounter = (m.programCounter + 8) % 2 ^ 64 ∧
    Registers.load m2.registers SP_REG = Registers.load m.registers SP_REG := by
  rcases hw : memWrite m.memory (wrapSub (Registers.load m.registers SP_REG) 8) 8
      ((m.programCounter + 8) % 2 ^ 64) with e | mem'
  · exfalso
    have hex : Instr.execute (.call loc)
        { m with programCounter := (m.programCounter + 8) % 2 ^ 64 } =
        .error (.outOfBounds e) := by
      simp only [Instr.execute]
      rw [hw]
    rw [Machine.step_eq m w1 (.call loc) hw1 hd1, hex] at h1
    exact StepResult.noConfusion h1
  · have hex : Instr.execute (.call loc)
        { m with programCounter := (m.programCounter + 8) % 2 ^ 64 } =
        .ok (callMachine { m with programCounter := (m.programCounter + 8) % 2 ^ 64 }
              loc mem') := by
      simp only [Instr.execute, callMachine]
      rw [hw]
    have hm1 : m1 = callMachine { m with programCounter := (m.programCounter + 8) % 2 ^ 64 }
        loc mem' :=
      step_ok_machine m m1 s1 w1 (.call loc) _ hw1 hd1 hex h1
    subst hm1
    have hA : Registers.load
        (callMachine { m with programCounter := (m.programCounter + 8) % 2 ^ 64 }
          loc mem').registers SP_REG =
        wrapSub (Registers.load m.registers SP_REG) 8 := by
      simp only [callMachine]
      exact Registers.load_store_self _ _ _ (by rw [hlen]; decide)
    have hB : memRead
        (callMachine { m with programCounter := (m.programCounter + 8) % 2 ^ 64 }
          loc mem').memory
        (wrapSub (Registers.load m.registers SP_REG) 8) 8 =
        .ok ((m.programCounter + 8) % 2 ^ 64) := by
      simp only [callMachine]
      exact memRead_after_write _ _ _ _ _ (Nat.mod_lt _ (by norm_num)) hw
    have hread : memRead
        (callMachine { m with programCounter := (m.programCounter + 8) % 2 ^ 64 }
          loc mem').memory
        (Registers.load
          (callMachine { m with programCounter := (m.programCounter + 8) % 2 ^ 64 }
            loc mem').registers SP_REG) 8 =
        .ok ((m.programCounter + 8) % 2 ^ 64) := by
      rw [hA]
      exact hB
    have hexr : Instr.execute .ret
        { (callMachine { m with programCounter := (m.programCounter + 8) % 2 ^ 64 } loc mem')
          with programCounter :=
            ((callMachine { m with programCounter := (m.programCounter + 8) % 2 ^ 64 }
               loc mem').programCounter + 8) % 2 ^ 64 } =
        .ok (retMachine
          { (callMachine { m with programCounter := (m.programCounter + 8) % 2 ^ 64 } loc mem')
            with programCounter :=
              ((callMachine { m with programCounter := (m.programCounter + 8) % 2 ^ 64 }
                 loc mem').programCounter + 8) % 2 ^ 64 }
          ((m.programCounter + 8) % 2 ^ 64)) := by
      simp only [Instr.execute, retMachine]
      rw [hread]
    have hm2 : m2 = retMachine
        { (callMachine { m with programCounter := (m.programCounter + 8) % 2 ^ 64 } loc mem')
          with programCounter :=
            ((callMachine { m with programCounter := (m.programCounter + 8) % 2 ^ 64 }
               loc mem').programCounter + 8) % 2 ^ 64 }
        ((m.programCounter + 8) % 2 ^ 64) :=
      step_ok_machine _ m2 s2 w2 .ret _ hw2 hd2 hexr h2
    subst hm2
    refine ⟨hA, hB, ?_, ?_⟩
    · simp only [retMachine]
    · simp only [retMachine, callMachine]
      rw [Registers.load_store_self _ _ _ (by rw [Registers.length_store, hlen]; decide),
        Registers.load_store_self _ _ _ (by rw [hlen]; decide),
        wrapSub_add_cancel _ hsp]

/-- Extract the machine from a successful step (used to name the
intermediate machines of concrete multi-step runs). -/
def stepMachine (m : Machine) : Machine :=
  match m.step with
  | .ok _ m' => m'
  | _ => m

/-- A concrete machine whose memory holds `call 16` at address 0 and `ret`
at address 16, with SP = FP = 64 (the memory capacity). -/
def callRetMachine : Machine :=
  { programCounter := 0
    memory := leBytes 8 (Layout.toBinary (.l10 16) 612) ++ List.replicate 8 0 ++
      leBytes 8 (Layout.toBinary (.l1 0 0) 624) ++ List.replicate 40 0
    registers := Registers.new 64
    flags := Flags.default
    io := ⟨[], []⟩ }

/-- C6's theorem applied at a concrete input: running `call 16` and then the
`ret` it jumps to leaves the program counter at 8 (the instruction after the
call) and SP back at 64. -/
theorem step_call_ret_witness :
    Registers.load (stepMachine callRetMachine).registers SP_REG =
      wrapSub (Registers.load callRetMachine.registers SP_REG) 8 ∧
    memRead (stepMachine callRetMachine).memory
      (wrapSub (Registers.load callRetMachine.registers SP_REG) 8) 8 =
      .ok ((callRetMachine.programCounter + 8) % 2 ^ 64) ∧
    (stepMachine (stepMachine callRetMachine)).programCounter =
      (callRetMachine.programCounter + 8) % 2 ^ 64 ∧
    Registers.load (stepMachine (stepMachine callRetMachine)).registers SP_REG =
      Registers.load callRetMachine.registers SP_REG :=
  step_call_then_ret callRetMachine (stepMachine callRetMachine)
    (stepMachine (stepMachine callRetMachine)) (.immediate 16)
    (Layout.toBinary (.l10 16) 612) (Layout.toBinary (.l1 0 0) 624) .cont .cont
    (by decide) (by decide) (by decide) rfl rfl (by decide) rfl rfl

theorem insertLabels_not_mem (labels : List String) (off : Nat) (acc : String → Option Nat)
    (l : String) (hl : l ∉ labels) : insertLabels labels off acc l = acc l := by
  induction labels generalizing acc with
  | nil => rfl
  | cons x xs ih =>
    have hx : l ≠ x := fun h => hl (by simp [h])
    have hxs : l ∉ xs := fun h => hl (by simp [h])
    simp only [insertLabels, List.foldl_cons] at ih ⊢
    rw [ih _ hxs]
    simp [hx]

theorem insertLabels_mem (labels : List String) (off : Nat) (acc : String → Option Nat)
    (l : String) (hl : l ∈ labels) : insertLabels labels off acc l = some off := by
  induction labels generalizing acc with
  | nil => cases hl
  | cons x xs ih =>
    simp only [insertLabels, List.foldl_cons] at ih ⊢
    by_cases hxs : l ∈ xs
    · exact ih _ hxs
    · have hx : l = x := by
        rcases List.mem_cons.mp hl with h | h
        · exact h
        · exact absurd h hxs
      rw [show (List.foldl (fun acc l => fun name => if name = l then some off else acc name)
          (fun name => if name = x then some off else acc name) xs : String → Option Nat) l =
          (fun name => if name = x then some off else acc name) l from
          insertLabels_not_mem xs off _ l hxs]
      simp [hx]

theorem allLabels_cons (s : Stmt) (rest : List Stmt) :
    allLabels (s :: rest) = s.labels ++ allLabels rest := by
  simp [allLabels]

theorem labelOffsetsGo_not_mem (stmts : List Stmt) (off : Nat) (acc : String → Option Nat)
    (l : String) (hl : l ∉ allLabels stmts) : labelOffsetsGo stmts off acc l = acc l := by
  induction stmts generalizing off acc with
  | nil => rfl
  | cons s rest ih =>
    rw [allLabels_cons] at hl
    have h1 : l ∉ s.labels := fun h => hl (List.mem_append.mpr (Or.inl h))
    have h2 : l ∉ allLabels rest := fun h => hl (List.mem_append.mpr (Or.inr h))
    simp only [labelOffsetsGo]
    rw [ih _ _ h2, insertLabels_not_mem _ _ _ _ h1]

theorem labelOffsetsGo_lookup (stmts : List Stmt) (off : Nat) (acc : String → Option Nat)
    (i : Nat) (hi : i < stmts.length) (l : String)
    (huniq : (allLabels stmts).Nodup)
    (hl : l ∈ (stmts.get ⟨i, hi⟩).labels) :
    labelOffsetsGo stmts off acc l = some (off + stmtsSizeBytes (stmts.take i)) := by
  induction stmts generalizing off acc i with
  | nil => exact absurd hi (Nat.not_lt_zero i)
  | cons s rest ih =>
    have happ : (s.labels ++ allLabels rest).Nodup := by
      rw [← allLabels_cons]
      exact huniq
    rcases i with _ | i
    · have hl0 : l ∈ s.labels := hl
      have hrest : l ∉ allLabels rest :=
        fun h => (List.disjoint_of_nodup_append happ) hl0 h
      simp only [labelOffsetsGo]
      rw [labelOffsetsGo_not_mem rest _ _ l hrest, insertLabels_mem _ _ _ _ hl0]
      simp [stmtsSizeBytes]
    · have huniq' : (allLabels rest).Nodup := happ.of_append_right
      have hl' : l ∈ (rest.get ⟨i, by exact Nat.lt_of_succ_lt_succ hi⟩).labels := hl
      simp only [labelOffsetsGo]
      rw [ih (off + s.kind.sizeBytes) (insertLabels s.labels off acc) i
        (Nat.lt_of_succ_lt_succ hi) huniq' hl']
      simp [stmtsSizeBytes, Nat.add_assoc]

/-- C8: for a program whose statements are taken in code-then-static order,
a label attached to statement `i` is mapped (with no diagnostic) to the sum
of the byte sizes of the statements before it: instructions contribute 8,
`.b1`/`.b2`/`.b4`/`.b8` their width, `.zero`/`.uninit` their declared byte
count, `.bytes` the literal's length.  Label names are globally unique
(the invariant `asm.rs` documents on `Stmt::labels`). -/
theorem label_offsets_prefix_sum (prog : Program) (i : Nat) (l : String)
    (hi : i < prog.iterAllStmts.length)
    (huniq : (allLabels prog.iterAllStmts).Nodup)
    (hl : l ∈ (prog.iterAllStmts.get ⟨i, hi⟩).labels) :
    LabelOffsets.lookup (LabelOffsets.new prog) l =
      (stmtsSizeBytes (prog.iterAllStmts.take i), false) := by
  unfold LabelOffsets.new LabelOffsets.lookup
  rw [labelOffsetsGo_lookup _ 0 _ i hi l huniq hl]
  simp

/-- A concrete program: two instructions in `.code`, then `.zero 5` and
`.bytes` of length 3 in `.static`. -/
def sampleProgram : Program :=
  { codeSection := some [⟨["start"], .instr⟩, ⟨[], .instr⟩]
    staticSection := some [⟨["dat"], .staticData (.staticZero 5)⟩,
                           ⟨["tail"], .staticData (.staticByteStr [1, 2, 3])⟩] }

/-- C8's theorem applied at a concrete input: in `sampleProgram` the label
`tail` on the fourth statement gets offset 8 + 8 + 5 = 21. -/
theorem label_offsets_witness :
    LabelOffsets.lookup (LabelOffsets.new sampleProgram) "tail" =
      (stmtsSizeBytes (sampleProgram.iterAllStmts.take 3), false) :=
  label_offsets_prefix_sum sampleProgram 3 "tail" (by decide) (by decide) (by decide)

end WolfAsm
